import Mathlib

/-!
Verification of `move_homedir.cpp`: a registry walker that rewrites string
values containing a stale home-directory path.  The development shallowly
embeds the three components of the source:

* `Replace` — the pure substring-replacement loop (source lines 219–235),
  modelled on `List Char` with explicit fuel so that the loop's
  (non-)termination is itself expressible;
* `RegKey.make` — the `RegKey` constructor's observable state
  (source lines 81–99 and 124–139);
* `iter` / `iterValues` — the recursive registry walk (source lines
  254–345) over a tree model of the registry in which every store
  interaction (child enumeration, child open, value enumeration, value
  fetch, value write) carries the error code the live registry would
  return.
-/

set_option maxRecDepth 4000

namespace MvHome

/-- Registry API error codes distinguished by the source
(`ERROR_SUCCESS`, `ERROR_FILE_NOT_FOUND`, `ERROR_ACCESS_DENIED`,
`ERROR_UNSUPPORTED_TYPE`, `ERROR_MORE_DATA`); every other code is
`other n`. -/
inductive ErrCode where
  | success
  | fileNotFound
  | accessDenied
  | unsupportedType
  | moreData
  | other (code : Nat)
deriving DecidableEq

/-- `FROM_NAME` of the source: the substring searched for. -/
def FROM_NAME : List Char := "Users\\from".toList

/-- `TO_NAME` of the source: the replacement substring. -/
def TO_NAME : List Char := "Users\\to".toList

/-- Whether `needle` occurs in `value` starting exactly at index `p`
(the matching criterion of `std::wstring::find`). -/
def matchAt (value needle : List Char) (p : Nat) : Bool :=
  decide ((value.drop p).take needle.length = needle)

/-- Scan positions `pos, pos+1, …` (at most `fuel` of them) for the first
match of `needle`; helper for `findFrom`. -/
def findFromAux (value needle : List Char) : Nat → Nat → Option Nat
  | 0, _ => none
  | fuel + 1, pos =>
    if matchAt value needle pos then some pos
    else findFromAux value needle fuel (pos + 1)

/-- `value.find(needle, pos)` of `std::wstring`: the least `p ≥ pos` at
which `needle` matches, `none` standing for `npos`. -/
def findFrom (value needle : List Char) (pos : Nat) : Option Nat :=
  if pos ≤ value.length then findFromAux value needle (value.length + 1 - pos) pos
  else none

/-- One pass of the `while (true)` loop of `Replace` (source lines
225–232), with `fuel` bounding the number of iterations: `value.find`
from `pos`; on `npos` exit with the accumulated string, otherwise splice
`replacement` over the occurrence and resume immediately after it.
`none` means the fuel ran out before the loop exited. -/
def replaceFuel (needle replacement : List Char) : Nat → List Char → Nat → Option (List Char)
  | 0, _, _ => none
  | fuel + 1, value, pos =>
    match findFrom value needle pos with
    | none => some value
    | some p =>
      replaceFuel needle replacement fuel
        (value.take p ++ replacement ++ value.drop (p + needle.length))
        (p + replacement.length)

/-- `Replace(haystack, needle, replacement)` of the source, run with fuel
`haystack.length + 1`, which is proved sufficient whenever the needle is
non-empty (`replace_total_of_ne_nil`). -/
def Replace (haystack needle replacement : List Char) : Option (List Char) :=
  replaceFuel needle replacement (haystack.length + 1) haystack 0

/-- Total wrapper around `Replace` used inside the walker, where the
needle is the fixed non-empty `FROM_NAME` and the default branch is dead. -/
def ReplaceTotal (haystack needle replacement : List Char) : List Char :=
  (Replace haystack needle replacement).getD haystack

/-- Number of positions of `s` at which `sub` occurs. -/
def occCount (s sub : List Char) : Nat :=
  ((List.range (s.length + 1)).filter (fun q => matchAt s sub q)).length

/-- `wcsstr(s, sub) != NULL`: does `sub` occur anywhere in `s`? -/
def containsSub (s sub : List Char) : Bool :=
  (List.range (s.length + 1)).any (fun q => matchAt s sub q)

/-- One value of a registry key as seen through the store API during the
value loop of `iter` (source lines 294–343): the code `RegEnumValue`
returns for its ordinal, the value's name, the code `RegGetValue`
returns, the string data `RegGetValue` yields on success, and the code
`RegSetValueEx` would return were a write attempted. -/
structure ValueSlot where
  enumCode : ErrCode
  name : List Char
  getCode : ErrCode
  data : List Char
  setCode : ErrCode
deriving DecidableEq

/-- A registry key presented the way `iter` consumes it: its children in
enumeration order (source lines 259–292) followed by its own values
(`base`, source lines 294–343).  `child e nm oc sub rest` is a key whose
next child carries enumeration code `e`, name `nm`, open code `oc` and
subtree `sub`, with `rest` the remainder of the same key; `subkeyCount`
of the source is the spine length, `valueCount` the length of the list
at `base`. -/
inductive RegNode where
  | base (values : List ValueSlot)
  | child (enumCode : ErrCode) (name : List Char) (openCode : ErrCode)
      (sub : RegNode) (rest : RegNode)
deriving DecidableEq

/-- The value loop of `iter` (source lines 294–343).  Per value: an
enumeration failure aborts; a fetch code other than success or
unsupported-type aborts; on a successful fetch whose data contains
`FROM_NAME` the shared counter is incremented, the replacement is built,
and a failing `RegSetValueEx` aborts while a successful one stores the
replaced string.  Returns (success flag, counter, values as left in the
store). -/
def iterValues : List ValueSlot → Nat → Bool × Nat × List ValueSlot
  | [], count => (true, count, [])
  | v :: rest, count =>
    if v.enumCode ≠ ErrCode.success then (false, count, v :: rest)
    else if v.getCode ≠ ErrCode.success ∧ v.getCode ≠ ErrCode.unsupportedType then
      (false, count, v :: rest)
    else if v.getCode = ErrCode.success ∧ containsSub v.data FROM_NAME = true then
      if v.setCode ≠ ErrCode.success then (false, count + 1, v :: rest)
      else
        ((iterValues rest (count + 1)).1, (iterValues rest (count + 1)).2.1,
          { v with data := ReplaceTotal v.data FROM_NAME TO_NAME }
            :: (iterValues rest (count + 1)).2.2)
    else
      ((iterValues rest count).1, (iterValues rest count).2.1, v :: (iterValues rest count).2.2)

/-- `iter(keyHolder, count)` of the source (lines 254–345).  Child loop:
an enumeration failure aborts; a child whose open code is neither
success, not-found nor access-denied aborts; a successfully opened child
is walked recursively and its failure propagates; a not-found or
access-denied child is skipped.  After the children, the key's own
values are processed by `iterValues`.  Returns (success flag, counter,
tree as left in the store). -/
def iter : RegNode → Nat → Bool × Nat × RegNode
  | RegNode.base vs, count =>
    ((iterValues vs count).1, (iterValues vs count).2.1, RegNode.base (iterValues vs count).2.2)
  | RegNode.child e nm oc sub rest, count =>
    if e ≠ ErrCode.success then (false, count, RegNode.child e nm oc sub rest)
    else if oc ≠ ErrCode.success ∧ oc ≠ ErrCode.fileNotFound ∧ oc ≠ ErrCode.accessDenied then
      (false, count, RegNode.child e nm oc sub rest)
    else if oc = ErrCode.success then
      if (iter sub count).1 = false then
        (false, (iter sub count).2.1, RegNode.child e nm oc (iter sub count).2.2 rest)
      else
        ((iter rest (iter sub count).2.1).1, (iter rest (iter sub count).2.1).2.1,
          RegNode.child e nm oc (iter sub count).2.2 (iter rest (iter sub count).2.1).2.2)
    else
      ((iter rest count).1, (iter rest count).2.1, RegNode.child e nm oc sub (iter rest count).2.2)

/-- Result of the instrumented walk `iterW`: the three observables of
`iter` (`ok`, `cnt`, `node`) plus two ghost observations — `written`,
the number of values `RegSetValueEx` succeeded on, and `wfail`, whether
the walk aborted because `RegSetValueEx` failed. -/
structure IterRes where
  ok : Bool
  cnt : Nat
  node : RegNode
  written : Nat
  wfail : Bool
deriving DecidableEq

/-- Ghost-instrumented twin of the value loop `iterValues`: identical
control flow and store effect, additionally counting successful writes
and recording whether the abort came from a write failure. -/
def iterValuesW : List ValueSlot → Nat → Bool × Nat × List ValueSlot × Nat × Bool
  | [], count => (true, count, [], 0, false)
  | v :: rest, count =>
    if v.enumCode ≠ ErrCode.success then (false, count, v :: rest, 0, false)
    else if v.getCode ≠ ErrCode.success ∧ v.getCode ≠ ErrCode.unsupportedType then
      (false, count, v :: rest, 0, false)
    else if v.getCode = ErrCode.success ∧ containsSub v.data FROM_NAME = true then
      if v.setCode ≠ ErrCode.success then (false, count + 1, v :: rest, 0, true)
      else
        ((iterValuesW rest (count + 1)).1, (iterValuesW rest (count + 1)).2.1,
          { v with data := ReplaceTotal v.data FROM_NAME TO_NAME }
            :: (iterValuesW rest (count + 1)).2.2.1,
          (iterValuesW rest (count + 1)).2.2.2.1 + 1, (iterValuesW rest (count + 1)).2.2.2.2)
    else
      ((iterValuesW rest count).1, (iterValuesW rest count).2.1,
        v :: (iterValuesW rest count).2.2.1,
        (iterValuesW rest count).2.2.2.1, (iterValuesW rest count).2.2.2.2)

/-- Ghost-instrumented twin of `iter`: identical control flow and store
effect, additionally accumulating the successful-write count and the
write-failure-abort flag (see `IterRes`). -/
def iterW : RegNode → Nat → IterRes
  | RegNode.base vs, count =>
    ⟨(iterValuesW vs count).1, (iterValuesW vs count).2.1,
      RegNode.base (iterValuesW vs count).2.2.1,
      (iterValuesW vs count).2.2.2.1, (iterValuesW vs count).2.2.2.2⟩
  | RegNode.child e nm oc sub rest, count =>
    if e ≠ ErrCode.success then ⟨false, count, RegNode.child e nm oc sub rest, 0, false⟩
    else if oc ≠ ErrCode.success ∧ oc ≠ ErrCode.fileNotFound ∧ oc ≠ ErrCode.accessDenied then
      ⟨false, count, RegNode.child e nm oc sub rest, 0, false⟩
    else if oc = ErrCode.success then
      if (iterW sub count).ok = false then
        ⟨false, (iterW sub count).cnt, RegNode.child e nm oc (iterW sub count).node rest,
          (iterW sub count).written, (iterW sub count).wfail⟩
      else
        ⟨(iterW rest (iterW sub count).cnt).ok, (iterW rest (iterW sub count).cnt).cnt,
          RegNode.child e nm oc (iterW sub count).node (iterW rest (iterW sub count).cnt).node,
          (iterW sub count).written + (iterW rest (iterW sub count).cnt).written,
          (iterW rest (iterW sub count).cnt).wfail⟩
    else
      ⟨(iterW rest count).ok, (iterW rest count).cnt,
        RegNode.child e nm oc sub (iterW rest count).node,
        (iterW rest count).written, (iterW rest count).wfail⟩

/-- Cached metadata `RegQueryInfoKey` fills in `RegKey::getInfo`
(source lines 124–139). -/
structure KeyMeta where
  subkeyCount : Nat
  longestSubkeySize : Nat
  longestSubClassSize : Nat
  valueCount : Nat
  longestValueName : Nat
  longestValueData : Nat
  securityDescriptorSize : Nat
deriving DecidableEq

/-- Observable state of a `RegKey` after construction: depth, the error
code `RegOpenKeyEx` returned, the validity flag, the copied name, and
the cached metadata (`none` while `getInfo` has not filled it). -/
structure RegKey where
  depth : Nat
  errorCode : ErrCode
  isValidb : Bool
  name : List Char
  meta : Option KeyMeta
deriving DecidableEq

/-- The `RegKey` constructor (source lines 81–99): record the open code
returned by the store, set `isValidb` iff it is `ERROR_SUCCESS`, and
cache the store's metadata only on success (on failure `getInfo` is not
called, so the metadata stays empty). -/
def RegKey.make (openCode : ErrCode) (storeMeta : KeyMeta) (nm : List Char) (d : Nat) : RegKey :=
  { depth := d
    errorCode := openCode
    isValidb := decide (openCode = ErrCode.success)
    name := nm
    meta := if openCode = ErrCode.success then some storeMeta else none }

/-- The single string value `p = "C:\Users\from\data"` of the end-to-end
scenario; every store interaction concerning it succeeds. -/
def c1Value : ValueSlot :=
  { enumCode := ErrCode.success
    name := "p".toList
    getCode := ErrCode.success
    data := "C:\\Users\\from\\data".toList
    setCode := ErrCode.success }

/-- The end-to-end scenario store: one root with a single child `A`
holding the single value `c1Value`; the root itself has no values. -/
def c1Root : RegNode :=
  RegNode.child ErrCode.success "A".toList ErrCode.success
    (RegNode.base [c1Value]) (RegNode.base [])

/-- The end-to-end scenario store after the walk: `A.p` rewritten to
`"C:\Users\to\data"`. -/
def c1RootAfter : RegNode :=
  RegNode.child ErrCode.success "A".toList ErrCode.success
    (RegNode.base [{ c1Value with data := "C:\\Users\\to\\data".toList }]) (RegNode.base [])

/-- A matching string value whose write-back fails: `RegSetValueEx`
returns a fatal code. -/
def c2Value : ValueSlot :=
  { enumCode := ErrCode.success
    name := "p".toList
    getCode := ErrCode.success
    data := "C:\\Users\\from\\data".toList
    setCode := ErrCode.other 5 }

/-- A value that is not string-typed: `RegGetValue` reports
`ERROR_UNSUPPORTED_TYPE`. -/
def c6Value : ValueSlot :=
  { enumCode := ErrCode.success
    name := "q".toList
    getCode := ErrCode.unsupportedType
    data := []
    setCode := ErrCode.success }

/-- A value whose fetch fails with a code that is neither success nor
unsupported-type. -/
def c6FatalValue : ValueSlot :=
  { enumCode := ErrCode.success
    name := "q".toList
    getCode := ErrCode.moreData
    data := []
    setCode := ErrCode.success }

/-- A concrete metadata record for witnesses. -/
def zeroMeta : KeyMeta :=
  { subkeyCount := 0
    longestSubkeySize := 0
    longestSubClassSize := 0
    valueCount := 0
    longestValueName := 0
    longestValueData := 0
    securityDescriptorSize := 0 }

/-- A match of a non-empty needle at `p` lies entirely inside the string. -/
theorem matchAt_bound {value needle : List Char} {p : Nat} (hn : needle ≠ [])
    (h : matchAt value needle p = true) : p + needle.length ≤ value.length := by
  have h' : (value.drop p).take needle.length = needle := by
    simpa [matchAt] using h
  have hlen : ((value.drop p).take needle.length).length = needle.length := by rw [h']
  rw [List.length_take, List.length_drop] at hlen
  have hpos : 0 < needle.length := List.length_pos.mpr hn
  omega

/-- Beyond the end of the string a non-empty needle cannot match. -/
theorem matchAt_of_long {value needle : List Char} {p : Nat} (hn : needle ≠ [])
    (h : value.length ≤ p) : matchAt value needle p = false := by
  simp only [matchAt, List.drop_eq_nil_of_le h, List.take_nil, decide_eq_false_iff_not]
  exact fun he => hn he.symm

/-- The empty needle matches everywhere. -/
theorem matchAt_nil (value : List Char) (p : Nat) : matchAt value [] p = true := by
  simp [matchAt]

/-- What a successful probe of `findFromAux` guarantees: the returned
position is in the probed window, matches, and is the least matching
position at or after `pos`. -/
theorem findFromAux_some {value needle : List Char} :
    ∀ {fuel pos p : Nat}, findFromAux value needle fuel pos = some p →
      pos ≤ p ∧ p < pos + fuel ∧ matchAt value needle p = true ∧
        ∀ q, pos ≤ q → q < p → matchAt value needle q = false := by
  intro fuel
  induction fuel with
  | zero => intro pos p h; simp [findFromAux] at h
  | succ f ih =>
    intro pos p h
    rw [findFromAux] at h
    by_cases hm : matchAt value needle pos = true
    · rw [if_pos hm] at h
      cases h
      exact ⟨Nat.le_refl _, by omega, hm, fun q hq1 hq2 => absurd hq1 (by omega)⟩
    · rw [if_neg hm] at h
      obtain ⟨h1, h2, h3, h4⟩ := ih h
      refine ⟨by omega, by omega, h3, fun q hq1 hq2 => ?_⟩
      rcases Nat.eq_or_lt_of_le hq1 with hq | hq
      · rw [hq] at hm; exact Bool.eq_false_iff.mpr hm
      · exact h4 q hq hq2

/-- A failed probe of `findFromAux` means no match in the probed window. -/
theorem findFromAux_none {value needle : List Char} :
    ∀ {fuel pos : Nat}, findFromAux value needle fuel pos = none →
      ∀ q, pos ≤ q → q < pos + fuel → matchAt value needle q = false := by
  intro fuel
  induction fuel with
  | zero => intro pos _ q hq1 hq2; omega
  | succ f ih =>
    intro pos h q hq1 hq2
    rw [findFromAux] at h
    by_cases hm : matchAt value needle pos = true
    · rw [if_pos hm] at h; cases h
    · rw [if_neg hm] at h
      rcases Nat.eq_or_lt_of_le hq1 with hq | hq
      · rw [hq] at hm; exact Bool.eq_false_iff.mpr hm
      · exact ih h q hq (by omega)

/-- If nothing at or after `pos` matches, every probe fails. -/
theorem findFromAux_none_of {value needle : List Char}
    (h : ∀ q, pos ≤ q → matchAt value needle q = false) :
    ∀ fuel, findFromAux value needle fuel pos = none := by
  have key : ∀ fuel pos, (∀ q, pos ≤ q → matchAt value needle q = false) →
      findFromAux value needle fuel pos = none := by
    intro fuel
    induction fuel with
    | zero => intro pos _; rfl
    | succ f ih =>
      intro pos hall
      rw [findFromAux, if_neg, ih (pos + 1) (fun q hq => hall q (by omega))]
      rw [hall pos (Nat.le_refl _)]
      exact Bool.false_ne_true
  exact fun fuel => key fuel pos h

/-- What `value.find(needle, pos)` returning a position guarantees. -/
theorem findFrom_some {value needle : List Char} {pos p : Nat}
    (h : findFrom value needle pos = some p) :
    pos ≤ p ∧ p ≤ value.length ∧ matchAt value needle p = true ∧
      ∀ q, pos ≤ q → q < p → matchAt value needle q = false := by
  rw [findFrom] at h
  by_cases hp : pos ≤ value.length
  · rw [if_pos hp] at h
    obtain ⟨h1, h2, h3, h4⟩ := findFromAux_some h
    exact ⟨h1, by omega, h3, h4⟩
  · rw [if_neg hp] at h; cases h

/-- `npos` from `find` means a non-empty needle matches nowhere at or
after `pos`. -/
theorem findFrom_none {value needle : List Char} {pos : Nat} (hn : needle ≠ [])
    (h : findFrom value needle pos = none) :
    ∀ q, pos ≤ q → matchAt value needle q = false := by
  rw [findFrom] at h
  intro q hq
  by_cases hp : pos ≤ value.length
  · rw [if_pos hp] at h
    by_cases hql : q ≤ value.length
    · exact findFromAux_none h q hq (by omega)
    · exact matchAt_of_long hn (by omega)
  · exact matchAt_of_long hn (by omega)

/-- If nothing at or after `pos` matches, `find` returns `npos`. -/
theorem findFrom_none_of {value needle : List Char} {pos : Nat}
    (h : ∀ q, pos ≤ q → matchAt value needle q = false) :
    findFrom value needle pos = none := by
  rw [findFrom]
  by_cases hp : pos ≤ value.length
  · rw [if_pos hp]; exact findFromAux_none_of h _
  · rw [if_neg hp]

/-- Length of the spliced string after one replacement step. -/
theorem splice_length (value needle replacement : List Char) (p : Nat)
    (hb : p + needle.length ≤ value.length) :
    (value.take p ++ replacement ++ value.drop (p + needle.length)).length
      = p + replacement.length + (value.length - (p + needle.length)) := by
  simp only [List.length_append, List.length_take, List.length_drop]
  omega

/-- Each iteration of the `Replace` loop strictly shortens the unscanned
suffix of the working string, by exactly the needle's length. -/
theorem splice_diff_lt (value needle replacement : List Char) (pos p : Nat) (hn : needle ≠ [])
    (hf : findFrom value needle pos = some p) :
    (value.take p ++ replacement ++ value.drop (p + needle.length)).length
        - (p + replacement.length)
      < value.length - pos := by
  obtain ⟨h1, _, h3, _⟩ := findFrom_some hf
  have hb := matchAt_bound hn h3
  have hpos : 0 < needle.length := List.length_pos.mpr hn
  rw [splice_length value needle replacement p hb]
  omega

/-- With a non-empty needle, fuel exceeding the unscanned suffix length
is enough for the `Replace` loop to exit. -/
theorem replaceFuel_isSome {needle replacement : List Char} (hn : needle ≠ []) :
    ∀ (fuel : Nat) (value : List Char) (pos : Nat), value.length - pos < fuel →
      (replaceFuel needle replacement fuel value pos).isSome = true := by
  intro fuel
  induction fuel with
  | zero => intro v pos h; omega
  | succ f ih =>
    intro v pos h
    rw [replaceFuel]
    cases hf : findFrom v needle pos with
    | none => rfl
    | some p =>
      exact ih _ _ (by have := splice_diff_lt v needle replacement pos p hn hf; omega)

/-- `Replace` exits its loop for every haystack and replacement whenever
the needle is non-empty. -/
theorem replace_total_of_ne_nil {haystack needle replacement : List Char} (hn : needle ≠ []) :
    (Replace haystack needle replacement).isSome = true :=
  replaceFuel_isSome hn _ _ _ (by omega)

/-- With the empty needle, `find` succeeds at `pos` itself whenever `pos`
is still inside the string. -/
theorem findFrom_nil {value : List Char} {pos : Nat} (h : pos ≤ value.length) :
    findFrom value [] pos = some pos := by
  rw [findFrom, if_pos h]
  have he : value.length + 1 - pos = (value.length - pos) + 1 := by omega
  rw [he, findFromAux, if_pos (matchAt_nil value pos)]

/-- With the empty needle, the `Replace` loop consumes any finite fuel
without ever exiting: the source's `while (true)` never terminates. -/
theorem replaceFuel_nil_none (replacement : List Char) :
    ∀ (fuel : Nat) (value : List Char) (pos : Nat), pos ≤ value.length →
      replaceFuel [] replacement fuel value pos = none := by
  intro fuel
  induction fuel with
  | zero => intro v pos _; rfl
  | succ f ih =>
    intro v pos h
    rw [replaceFuel, findFrom_nil h]
    apply ih
    have hb : pos + List.length ([] : List Char) ≤ v.length := by simpa using h
    rw [splice_length v [] replacement pos hb]
    simp

/-- A string with zero occurrences has no match at any in-range position. -/
theorem occCount_eq_zero {s sub : List Char} (h : occCount s sub = 0) :
    ∀ q, q ≤ s.length → matchAt s sub q = false := by
  intro q hq
  rw [occCount, List.length_eq_zero, List.filter_eq_nil_iff] at h
  have hqm := h q (List.mem_range.mpr (by omega))
  simpa using hqm

/-- Zero occurrences forces the needle to be non-empty, because the empty
needle occurs at position 0 of every string. -/
theorem occCount_ne_nil {s sub : List Char} (h : occCount s sub = 0) : sub ≠ [] := by
  intro hsub
  have h0 := occCount_eq_zero h 0 (by omega)
  rw [hsub, matchAt_nil] at h0
  cases h0

/-- A string that matches the needle nowhere has zero occurrences. -/
theorem occCount_eq_zero_of_all {s sub : List Char} (h : ∀ q, matchAt s sub q = false) :
    occCount s sub = 0 := by
  rw [occCount, List.length_eq_zero, List.filter_eq_nil_iff]
  intro a _
  simp [h a]

/-- After splicing the replacement over the first occurrence (at `p`) of
the needle, the spliced string has no occurrence of the needle starting
below the resume position `p + replacement.length`, provided the needle
and the replacement are non-empty and share no character. -/
theorem no_new_match {value needle replacement : List Char} {pos p : Nat}
    (hn : needle ≠ []) (hr : replacement ≠ [])
    (hd : ∀ c ∈ needle, c ∉ replacement)
    (hm : matchAt value needle p = true)
    (hinv : ∀ q, q < pos → matchAt value needle q = false)
    (_hpos : pos ≤ p)
    (hmin : ∀ q, pos ≤ q → q < p → matchAt value needle q = false) :
    ∀ q, q < p + replacement.length →
      matchAt (value.take p ++ replacement ++ value.drop (p + needle.length)) needle q
        = false := by
  intro q hq
  set v' := value.take p ++ replacement ++ value.drop (p + needle.length) with hv'
  have hb : p + needle.length ≤ value.length := matchAt_bound hn hm
  have hnl : 0 < needle.length := List.length_pos.mpr hn
  have hrl : 0 < replacement.length := List.length_pos.mpr hr
  have htp : (value.take p).length = p := by
    rw [List.length_take]; omega
  by_contra hq'
  rw [Bool.not_eq_false] at hq'
  have hEq : (v'.drop q).take needle.length = needle := by
    simpa [matchAt] using hq'
  by_cases hA : q + needle.length ≤ p
  · -- the putative occurrence lies inside the unchanged prefix
    have hA' : q + needle.length ≤ (value.take p).length := by omega
    have htake : v'.take (q + needle.length) = value.take (q + needle.length) := by
      rw [hv', List.append_assoc, List.take_append_of_le_length hA', List.take_take,
        Nat.min_eq_left hA]
    have hmatch : matchAt value needle q = true := by
      have hc : (value.drop q).take needle.length = needle := by
        calc (value.drop q).take needle.length
            = (value.take (q + needle.length)).drop q := List.take_drop q needle.length value
          _ = (v'.take (q + needle.length)).drop q := by rw [htake]
          _ = (v'.drop q).take needle.length := (List.take_drop q needle.length v').symm
          _ = needle := hEq
      simp [matchAt, hc]
    rcases Nat.lt_or_ge q pos with hcase | hcase
    · rw [hinv q hcase] at hmatch; cases hmatch
    · rw [hmin q hcase (by omega)] at hmatch; cases hmatch
  · -- the putative occurrence overlaps the inserted replacement,
    -- so some character of the needle would be a character of the
    -- replacement
    have hA2 : p < q + needle.length := by omega
    obtain ⟨j, hjp, hjq, hjr, hjn⟩ :
        ∃ j, p ≤ j ∧ q ≤ j ∧ j < p + replacement.length ∧ j < q + needle.length := by
      rcases Nat.le_total p q with hle | hle
      · exact ⟨q, hle, Nat.le_refl q, by omega, by omega⟩
      · exact ⟨p, Nat.le_refl p, hle, by omega, by omega⟩
    have hstep1 : needle[j - q]? = v'[j]? := by
      calc needle[j - q]?
          = ((v'.drop q).take needle.length)[j - q]? := by rw [hEq]
        _ = (v'.drop q)[j - q]? := List.getElem?_take_of_lt (by omega)
        _ = v'[q + (j - q)]? := List.getElem?_drop v' q (j - q)
        _ = v'[j]? := by rw [Nat.add_sub_cancel' hjq]
    have hstep2 : v'[j]? = replacement[j - p]? := by
      calc v'[j]?
          = (value.take p ++ (replacement ++ value.drop (p + needle.length)))[j]? := by
            rw [hv', List.append_assoc]
        _ = (replacement ++ value.drop (p + needle.length))[j - (value.take p).length]? :=
            List.getElem?_append_right (by omega)
        _ = (replacement ++ value.drop (p + needle.length))[j - p]? := by rw [htp]
        _ = replacement[j - p]? := List.getElem?_append_left (by omega)
    have hjq' : j - q < needle.length := by omega
    have hsome : needle[j - q]? = some needle[j - q] := List.getElem?_eq_getElem hjq'
    have hmemn : needle[j - q] ∈ needle := List.getElem_mem hjq'
    have hmemr : needle[j - q] ∈ replacement := by
      apply List.getElem?_mem
      rw [← hstep2, ← hstep1, hsome]
    exact hd _ hmemn hmemr

/-- Invariant induction for the `Replace` loop: under the disjointness
side conditions, a run that exits leaves no occurrence of the needle
anywhere in the result. -/
theorem replaceFuel_no_occ {needle replacement : List Char} (hn : needle ≠ [])
    (hr : replacement ≠ []) (hd : ∀ c ∈ needle, c ∉ replacement) :
    ∀ (fuel : Nat) (value : List Char) (pos : Nat) (out : List Char),
      (∀ q, q < pos → matchAt value needle q = false) →
      replaceFuel needle replacement fuel value pos = some out →
      ∀ q, matchAt out needle q = false := by
  intro fuel
  induction fuel with
  | zero => intro v pos out _ h; cases h
  | succ f ih =>
    intro v pos out hinv h
    rw [replaceFuel] at h
    cases hf : findFrom v needle pos with
    | none =>
      rw [hf] at h
      cases h
      intro q
      rcases Nat.lt_or_ge q pos with hq | hq
      · exact hinv q hq
      · exact findFrom_none hn hf q hq
    | some p =>
      rw [hf] at h
      obtain ⟨h1, _, h3, h4⟩ := findFrom_some hf
      exact ih _ _ _ (no_new_match hn hr hd h3 hinv h1 h4) h

/-- Claim C8: a haystack with zero occurrences of the needle is returned
unchanged by `Replace` (and the loop exits, in one iteration). -/
theorem c8_replace_id (s needle replacement : List Char) (h : occCount s needle = 0) :
    Replace s needle replacement = some s := by
  have hn := occCount_ne_nil h
  have hall : ∀ q, 0 ≤ q → matchAt s needle q = false := by
    intro q _
    by_cases hq : q ≤ s.length
    · exact occCount_eq_zero h q hq
    · exact matchAt_of_long hn (by omega)
  rw [Replace, replaceFuel, findFrom_none_of hall]

/-- Witness for C8 at a concrete needle-free haystack. -/
theorem c8_replace_id_witness :
    occCount "abc".toList "x".toList = 0 ∧
      Replace "abc".toList "x".toList "yy".toList = some "abc".toList :=
  ⟨by decide, c8_replace_id "abc".toList "x".toList "yy".toList (by decide)⟩

/-- Claim C5: the two pinned behaviours of the left-to-right,
resume-after-replacement scan: overlapping occurrences are consumed
non-overlappingly (`"aaa" → "ba"`), and every stale path fragment in a
longer path is rewritten (`"Users\from\docs\Users\from\x" →
"Users\to\docs\Users\to\x"`). -/
theorem c5_replace_examples :
    Replace "aaa".toList "aa".toList "b".toList = some "ba".toList ∧
      Replace "Users\\from\\docs\\Users\\from\\x".toList "Users\\from".toList "Users\\to".toList
        = some "Users\\to\\docs\\Users\\to\\x".toList := by
  constructor
  · decide
  · decide

/-- Counterexample to claim C3 as stated: haystack `"aab"`, needle
`"ab"`, replacement `"b"`.  The needle is non-empty and the replacement
contains no occurrence of the needle, yet the result `"ab"` contains the
needle once — the occurrence straddles the inserted replacement and the
retained suffix, a region the resumed scan never revisits. -/
theorem c3_counterexample :
    Replace "aab".toList "ab".toList "b".toList = some "ab".toList ∧
      occCount "b".toList "ab".toList = 0 ∧
      occCount "ab".toList "ab".toList = 1 := by
  refine ⟨by decide, by decide, by decide⟩

/-- Claim C3 amended: for every haystack, every non-empty needle and
every non-empty replacement containing no character that occurs in the
needle, the result of `Replace` contains zero occurrences of the
needle. -/
theorem c3_no_occurrence_amended (haystack needle replacement out : List Char)
    (hn : needle ≠ []) (hr : replacement ≠ [])
    (hd : ∀ c ∈ needle, c ∉ replacement)
    (h : Replace haystack needle replacement = some out) :
    occCount out needle = 0 := by
  apply occCount_eq_zero_of_all
  exact replaceFuel_no_occ hn hr hd _ haystack 0 out (fun q hq => absurd hq (by omega)) h

/-- Witness for the amended C3 at a concrete input. -/
theorem c3_no_occurrence_amended_witness :
    occCount "xbby".toList "a".toList = 0 :=
  c3_no_occurrence_amended "xaay".toList "a".toList "b".toList "xbby".toList
    (by decide) (by decide) (by decide) (by decide)

/-- Claim C9: with a non-empty needle the `Replace` loop exits for every
haystack and replacement, because each iteration strictly shortens the
unscanned suffix; with the empty needle the loop consumes any finite
fuel without exiting, so the non-emptiness precondition is necessary. -/
theorem c9_termination (needle haystack replacement : List Char) :
    (needle ≠ [] → (Replace haystack needle replacement).isSome = true) ∧
      (needle ≠ [] → ∀ pos p : Nat, findFrom haystack needle pos = some p →
        (haystack.take p ++ replacement ++ haystack.drop (p + needle.length)).length
            - (p + replacement.length)
          < haystack.length - pos) ∧
      (needle = [] → ∀ (fuel pos : Nat), pos ≤ haystack.length →
        replaceFuel needle replacement fuel haystack pos = none) := by
  refine ⟨fun hn => replace_total_of_ne_nil hn, fun hn pos p hf => ?_, fun hn fuel pos hp => ?_⟩
  · exact splice_diff_lt haystack needle replacement pos p hn hf
  · rw [hn]
    exact replaceFuel_nil_none replacement fuel haystack pos hp

/-- Witness for C9: both conjuncts exercised at concrete inputs — a
non-empty needle on which `Replace` exits, the strict decrease at the
concrete first match, and the empty needle exhausting a concrete fuel. -/
theorem c9_termination_witness :
    (Replace "aaa".toList "aa".toList "b".toList).isSome = true ∧
      ("aaa".toList.take 0 ++ "b".toList ++ "aaa".toList.drop (0 + "aa".toList.length)).length
          - (0 + "b".toList.length)
        < "aaa".toList.length - 0 ∧
      replaceFuel ([] : List Char) "b".toList 5 "a".toList 0 = none := by
  refine ⟨(c9_termination "aa".toList "aaa".toList "b".toList).1 (by decide), ?_, ?_⟩
  · exact (c9_termination "aa".toList "aaa".toList "b".toList).2.1 (by decide) 0 0 (by decide)
  · exact (c9_termination [] "a".toList "b".toList).2.2 rfl 5 0 (by decide)

/-- The value loop never decreases the shared counter. -/
theorem iterValues_counter_le (vs : List ValueSlot) (c : Nat) : c ≤ (iterValues vs c).2.1 := by
  induction vs generalizing c with
  | nil => exact Nat.le_refl c
  | cons v rest ih =>
    rw [iterValues]
    split_ifs
    · exact Nat.le_refl c
    · exact Nat.le_refl c
    · exact Nat.le_succ c
    · exact Nat.le_trans (Nat.le_succ c) (ih (c + 1))
    · exact ih c

/-- Claim C10: the match counter is monotone across every walk, whether
the walk succeeds or aborts: `iter` never returns a counter below the
one it was given. -/
theorem c10_counter_monotone : ∀ (n : RegNode) (c : Nat), c ≤ (iter n c).2.1 := by
  intro n
  induction n with
  | base vs => intro c; exact iterValues_counter_le vs c
  | child e nm oc sub rest ihsub ihrest =>
    intro c
    rw [iter]
    split_ifs
    · exact Nat.le_refl c
    · exact Nat.le_refl c
    · exact ihsub c
    · exact Nat.le_trans (ihsub c) (ihrest _)
    · exact ihrest c

/-- The instrumented value loop agrees with the source value loop on the
three observables (success flag, counter, stored values). -/
theorem iterValuesW_agree (vs : List ValueSlot) (c : Nat) :
    iterValues vs c
      = ((iterValuesW vs c).1, (iterValuesW vs c).2.1, (iterValuesW vs c).2.2.1) := by
  induction vs generalizing c with
  | nil => rfl
  | cons v rest ih =>
    rw [iterValues, iterValuesW]
    split_ifs <;> simp [ih]

/-- The instrumented walk agrees with the source walk on the three
observables (success flag, counter, stored tree). -/
theorem iterW_agree (n : RegNode) (c : Nat) :
    iter n c = ((iterW n c).ok, (iterW n c).cnt, (iterW n c).node) := by
  induction n generalizing c with
  | base vs => rw [iter, iterW, iterValuesW_agree vs c]
  | child e nm oc sub rest ihsub ihrest =>
    by_cases h1 : e ≠ ErrCode.success
    · rw [iter, iterW]; simp [h1]
    · by_cases h2 : oc ≠ ErrCode.success ∧ oc ≠ ErrCode.fileNotFound ∧ oc ≠ ErrCode.accessDenied
      · rw [iter, iterW]; simp [h1, h2]
      · by_cases h3 : oc = ErrCode.success
        · by_cases hok : (iterW sub c).ok = false
          · rw [iter, iterW]; simp [h1, h2, h3, ihsub, hok]
          · rw [iter, iterW]; simp [h1, h2, h3, ihsub, hok, ihrest]
        · have h4 : oc = ErrCode.fileNotFound ∨ oc = ErrCode.accessDenied := by
            by_contra hc
            push_neg at hc
            exact h2 ⟨h3, hc.1, hc.2⟩
          rw [iter, iterW]
          rcases h4 with h4 | h4 <;> simp [h1, h3, h4, ihrest]

/-- A successful value loop never aborted, so its write-failure flag is
clear. -/
theorem iterValuesW_ok_wfail (vs : List ValueSlot) (c : Nat) :
    (iterValuesW vs c).1 = true → (iterValuesW vs c).2.2.2.2 = false := by
  induction vs generalizing c with
  | nil => intro _; rfl
  | cons v rest ih =>
    by_cases h1 : v.enumCode ≠ ErrCode.success
    · rw [iterValuesW]; simp [if_pos h1]
    · by_cases h2 : v.getCode ≠ ErrCode.success ∧ v.getCode ≠ ErrCode.unsupportedType
      · rw [iterValuesW]; simp [if_neg h1, if_pos h2]
      · by_cases h3 : v.getCode = ErrCode.success ∧ containsSub v.data FROM_NAME = true
        · by_cases h4 : v.setCode ≠ ErrCode.success
          · rw [iterValuesW]; simp [if_neg h1, if_neg h2, if_pos h3, if_pos h4]
          · rw [iterValuesW]
            simp only [if_neg h1, if_neg h2, if_pos h3, if_neg h4]
            exact ih (c + 1)
        · rw [iterValuesW]
          simp only [if_neg h1, if_neg h2, if_neg h3]
          exact ih c

/-- A successful walk never aborted, so its write-failure flag is clear. -/
theorem iterW_ok_wfail (n : RegNode) (c : Nat) :
    (iterW n c).ok = true → (iterW n c).wfail = false := by
  induction n generalizing c with
  | base vs => intro h; exact iterValuesW_ok_wfail vs c h
  | child e nm oc sub rest ihsub ihrest =>
    by_cases h1 : e ≠ ErrCode.success
    · rw [iterW]; simp [if_pos h1]
    · by_cases h2 : oc ≠ ErrCode.success ∧ oc ≠ ErrCode.fileNotFound ∧ oc ≠ ErrCode.accessDenied
      · rw [iterW]; simp [if_neg h1, if_pos h2]
      · by_cases h3 : oc = ErrCode.success
        · by_cases hok : (iterW sub c).ok = false
          · rw [iterW]; simp [if_neg h1, if_neg h2, if_pos h3, if_pos hok]
          · rw [iterW]
            simp only [if_neg h1, if_neg h2, if_pos h3, if_neg hok]
            exact ihrest _
        · rw [iterW]
          simp only [if_neg h1, if_neg h2, if_neg h3]
          exact ihrest c

/-- Counter accounting for the value loop: the counter grows by the
number of successful writes, plus one more when the loop aborted on a
failing write (the source increments before attempting the write). -/
theorem iterValuesW_delta (vs : List ValueSlot) (c : Nat) :
    (iterValuesW vs c).2.1
      = c + (iterValuesW vs c).2.2.2.1
          + (if (iterValuesW vs c).2.2.2.2 = true then 1 else 0) := by
  induction vs generalizing c with
  | nil => simp [iterValuesW]
  | cons v rest ih =>
    by_cases h1 : v.enumCode ≠ ErrCode.success
    · rw [iterValuesW]; simp [if_pos h1]
    · by_cases h2 : v.getCode ≠ ErrCode.success ∧ v.getCode ≠ ErrCode.unsupportedType
      · rw [iterValuesW]; simp [if_neg h1, if_pos h2]
      · by_cases h3 : v.getCode = ErrCode.success ∧ containsSub v.data FROM_NAME = true
        · by_cases h4 : v.setCode ≠ ErrCode.success
          · rw [iterValuesW]; simp [if_neg h1, if_neg h2, if_pos h3, if_pos h4]
          · rw [iterValuesW]
            simp only [if_neg h1, if_neg h2, if_pos h3, if_neg h4]
            have hrec := ih (c + 1)
            cases hw : (iterValuesW rest (c + 1)).2.2.2.2 <;>
              rw [hw] at hrec <;> simp [hw] at hrec ⊢ <;> omega
        · rw [iterValuesW]
          simp only [if_neg h1, if_neg h2, if_neg h3]
          have hrec := ih c
          cases hw : (iterValuesW rest c).2.2.2.2 <;>
            rw [hw] at hrec <;> simp [hw] at hrec ⊢ <;> omega

/-- Counter accounting for the whole walk (see `iterValuesW_delta`). -/
theorem iterW_delta (n : RegNode) (c : Nat) :
    (iterW n c).cnt
      = c + (iterW n c).written + (if (iterW n c).wfail = true then 1 else 0) := by
  induction n generalizing c with
  | base vs => exact iterValuesW_delta vs c
  | child e nm oc sub rest ihsub ihrest =>
    by_cases h1 : e ≠ ErrCode.success
    · rw [iterW]; simp [if_pos h1]
    · by_cases h2 : oc ≠ ErrCode.success ∧ oc ≠ ErrCode.fileNotFound ∧ oc ≠ ErrCode.accessDenied
      · rw [iterW]; simp [if_neg h1, if_pos h2]
      · by_cases h3 : oc = ErrCode.success
        · by_cases hok : (iterW sub c).ok = false
          · rw [iterW]
            simp only [if_neg h1, if_neg h2, if_pos h3, if_pos hok]
            exact ihsub c
          · rw [iterW]
            simp only [if_neg h1, if_neg h2, if_pos h3, if_neg hok]
            have hsub := ihsub c
            have hs : (iterW sub c).wfail = false := by
              apply iterW_ok_wfail sub c
              cases hx : (iterW sub c).ok
              · exact absurd hx hok
              · rfl
            rw [hs] at hsub
            simp at hsub
            have hrest := ihrest ((iterW sub c).cnt)
            cases hw : (iterW rest (iterW sub c).cnt).wfail <;>
              rw [hw] at hrest <;> simp [hw] at hrest ⊢ <;> omega
        · rw [iterW]
          simp only [if_neg h1, if_neg h2, if_neg h3]
          exact ihrest c

/-- Counterexample to claim C2 as stated: a node with a single matching
string value whose write-back fails.  The walk aborts with the counter
incremented once, yet zero values were successfully written back (the
store is unchanged) — the source increments `count` before calling
`RegSetValueEx`. -/
theorem c2_counterexample :
    iter (RegNode.base [c2Value]) 0 = (false, 1, RegNode.base [c2Value]) ∧
      (iterW (RegNode.base [c2Value]) 0).written = 0 ∧
      (iterW (RegNode.base [c2Value]) 0).wfail = true := by
  refine ⟨by decide, by decide, by decide⟩

/-- Claim C2 amended: for every walk, the counter's change equals the
number of values successfully written back, plus one if the walk aborted
because a write failed (the counter is incremented before the write is
attempted). -/
theorem c2_counter_delta_amended (n : RegNode) (c : Nat) :
    (iter n c).2.1
      = c + (iterW n c).written + (if (iterW n c).wfail = true then 1 else 0) := by
  rw [iterW_agree n c]
  exact iterW_delta n c

/-- Claim C1: on the store with one root holding one child `A` with the
single string value `p = "C:\Users\from\data"`, the walk succeeds, the
counter ends at 1, and `A.p` is left as `"C:\Users\to\data"`. -/
theorem c1_end_to_end : iter c1Root 0 = (true, 1, c1RootAfter) := by decide

/-- Claim C4: during child enumeration, an access-denied child is
skipped — the walker continues with the siblings (and the key's values)
without recursing into the child, with the counter and the child's
subtree untouched; a child whose open fails with any code other than
access-denied and not-found makes the walk report failure immediately,
with counter and store unchanged. -/
theorem c4_child_open_policy (nm : List Char) (sub rest : RegNode) (c : Nat) :
    (iter (RegNode.child ErrCode.success nm ErrCode.accessDenied sub rest) c
        = ((iter rest c).1, (iter rest c).2.1,
            RegNode.child ErrCode.success nm ErrCode.accessDenied sub (iter rest c).2.2)) ∧
      ∀ oc : ErrCode, oc ≠ ErrCode.success → oc ≠ ErrCode.fileNotFound →
        oc ≠ ErrCode.accessDenied →
        iter (RegNode.child ErrCode.success nm oc sub rest) c
          = (false, c, RegNode.child ErrCode.success nm oc sub rest) := by
  constructor
  · rw [iter]; simp
  · intro oc h1 h2 h3
    rw [iter]
    simp [h1, h2, h3]

/-- Witness for C4: the access-denied skip and the fatal-code abort at a
concrete one-child store. -/
theorem c4_child_open_policy_witness :
    (iter (RegNode.child ErrCode.success [] ErrCode.accessDenied (RegNode.base [])
          (RegNode.base [])) 0
        = ((iter (RegNode.base []) 0).1, (iter (RegNode.base []) 0).2.1,
            RegNode.child ErrCode.success [] ErrCode.accessDenied (RegNode.base [])
              (iter (RegNode.base []) 0).2.2)) ∧
      iter (RegNode.child ErrCode.success [] (ErrCode.other 1) (RegNode.base [])
          (RegNode.base [])) 0
        = (false, 0, RegNode.child ErrCode.success [] (ErrCode.other 1) (RegNode.base [])
            (RegNode.base [])) :=
  ⟨(c4_child_open_policy [] (RegNode.base []) (RegNode.base []) 0).1,
    (c4_child_open_policy [] (RegNode.base []) (RegNode.base []) 0).2 (ErrCode.other 1)
      (by decide) (by decide) (by decide)⟩

/-- Claim C6: a value whose fetch reports unsupported-type is skipped
silently — the walk continues with the remaining values, the counter is
unchanged by it and the value is left unmodified in the store; a fetch
code that is neither success nor unsupported-type aborts the walk with
failure, counter and store unchanged. -/
theorem c6_value_fetch_policy (v : ValueSlot) (rest : List ValueSlot) (c : Nat) :
    (v.enumCode = ErrCode.success → v.getCode = ErrCode.unsupportedType →
        iterValues (v :: rest) c
          = ((iterValues rest c).1, (iterValues rest c).2.1, v :: (iterValues rest c).2.2)) ∧
      (v.enumCode = ErrCode.success → v.getCode ≠ ErrCode.success →
        v.getCode ≠ ErrCode.unsupportedType →
        iterValues (v :: rest) c = (false, c, v :: rest)) := by
  constructor
  · intro h1 h2
    rw [iterValues]
    simp [h1, h2]
  · intro h1 h2 h3
    rw [iterValues]
    simp [h1, h2, h3]

/-- Witness for C6: the unsupported-type skip and the fatal fetch abort
at concrete single-value stores. -/
theorem c6_value_fetch_policy_witness :
    (iterValues [c6Value] 0
        = ((iterValues [] 0).1, (iterValues [] 0).2.1, c6Value :: (iterValues [] 0).2.2)) ∧
      iterValues [c6FatalValue] 0 = (false, 0, [c6FatalValue]) :=
  ⟨(c6_value_fetch_policy c6Value [] 0).1 rfl rfl,
    (c6_value_fetch_policy c6FatalValue [] 0).2 rfl (by decide) (by decide)⟩

/-- Claim C7: `isValid()` holds iff the open succeeded; on a failed open
the handle records the store's error code and its cached metadata stays
empty. -/
theorem c7_open_failure (oc : ErrCode) (m : KeyMeta) (nm : List Char) (d : Nat) :
    ((RegKey.make oc m nm d).isValidb = true ↔ oc = ErrCode.success) ∧
      (oc ≠ ErrCode.success →
        (RegKey.make oc m nm d).errorCode = oc ∧ (RegKey.make oc m nm d).meta = none) := by
  constructor
  · simp [RegKey.make]
  · intro h
    exact ⟨rfl, by simp [RegKey.make, h]⟩

/-- Witness for C7 at a concrete access-denied open. -/
theorem c7_open_failure_witness :
    ((RegKey.make ErrCode.accessDenied zeroMeta [] 0).isValidb = true
        ↔ ErrCode.accessDenied = ErrCode.success) ∧
      (RegKey.make ErrCode.accessDenied zeroMeta [] 0).errorCode = ErrCode.accessDenied ∧
      (RegKey.make ErrCode.accessDenied zeroMeta [] 0).meta = none :=
  ⟨(c7_open_failure ErrCode.accessDenied zeroMeta [] 0).1,
    (c7_open_failure ErrCode.accessDenied zeroMeta [] 0).2 (by decide)⟩

end MvHome
